import Mathlib

/-!
Shallow embedding of the portfolio analytics of `app.py`
(bond-stock-portfolio): the metrics calculator, beta, PnL derivation,
asset classification, the per-account aggregation loops, the benchmark
fetch and the risk rollup.  Python floats are modelled as exact numbers:
rationals for the series arithmetic, reals where a square root occurs
(volatility and Sharpe).  External I/O (the brokerage REST client) is
modelled by passing each call's outcome as an `Except String` parameter,
so a `raise` inside the `try` corresponds to `Except.error` and the
`except` branch to the error case of the match.
-/

/-- Account entry as produced by `load_accounts_from_config` (app.py lines 20-26). -/
structure Account where
  name : String
  key_id : String
  secret_key : String
  base_url : String
deriving DecidableEq, Repr

/-- Snapshot returned by `rest.get_account()`: the fields of the Alpaca
account object that app.py reads (`equity`, `cash`, `buying_power`,
`last_equity`, `portfolio_value`). -/
structure AccountInfo where
  equity : ℚ
  cash : ℚ
  buying_power : ℚ
  last_equity : ℚ
  portfolio_value : ℚ
deriving DecidableEq, Repr

/-- Payload of `rest.get_portfolio_history(...)`: parallel lists of unix
timestamps and equity values (app.py lines 63, 67, 74-75). -/
structure PortfolioHistoryData where
  timestamp : List ℤ
  equity : List ℚ
deriving DecidableEq, Repr

/-- Result record of `calculate_metrics` (app.py lines 48-52). -/
structure Metrics where
  volatility : ℝ
  sharpe_ratio : ℝ
  max_drawdown : ℝ

/-- Mean of a list, `np.mean` (sum divided by length; division by zero
yields 0 in Lean, the callers in app.py never hit the empty case on the
paths the theorems below describe). -/
noncomputable def npMean (l : List ℝ) : ℝ := l.sum / l.length

/-- Population variance of a list, the quantity under `np.std` (numpy
default ddof = 0). -/
noncomputable def npVarR (l : List ℝ) : ℝ :=
  (l.map (fun x => (x - npMean l) ^ 2)).sum / l.length

/-- Standard deviation `np.std` (square root of the population variance). -/
noncomputable def npStd (l : List ℝ) : ℝ := Real.sqrt (npVarR l)

/-- Period-over-period fractional returns,
`np.diff(equity_array) / equity_array[:-1]` (app.py line 37). -/
noncomputable def npDiffRet (l : List ℝ) : List ℝ :=
  List.zipWith (fun a b => (b - a) / a) l l.tail

/-- Cumulative products, `np.cumprod` (app.py line 43). -/
noncomputable def cumprod : List ℝ → List ℝ
  | [] => []
  | x :: xs => x :: (cumprod xs).map (fun y => x * y)

/-- Running maxima, `np.maximum.accumulate` (app.py line 44). -/
noncomputable def runmax : List ℝ → List ℝ
  | [] => []
  | x :: xs => x :: (runmax xs).map (fun y => max x y)

/-- Minimum of a list, `np.min`; app.py only applies it to a non-empty
list (the `len >= 2` branch), the empty case is junk 0. -/
noncomputable def npMin : List ℝ → ℝ
  | [] => 0
  | x :: xs => xs.foldl min x

/-- Drawdown series of a returns list: cumulative products of `1 + r`,
their running maxima, and the relative gap, app.py lines 43-45. -/
noncomputable def drawdownSeries (returns : List ℝ) : List ℝ :=
  List.zipWith (fun c m => (c - m) / m)
    (cumprod (returns.map (fun r => 1 + r)))
    (runmax (cumprod (returns.map (fun r => 1 + r))))

/-- `calculate_metrics` (app.py lines 30-52): volatility, Sharpe ratio and
max drawdown of an equity curve, all zero when fewer than two points. -/
noncomputable def calculate_metrics (equity_values : List ℝ) : Metrics :=
  if equity_values.length < 2 then
    { volatility := 0, sharpe_ratio := 0, max_drawdown := 0 }
  else
    { volatility := npStd (npDiffRet equity_values) * Real.sqrt 252 * 100
      sharpe_ratio :=
        if 0 < npStd (npDiffRet equity_values) then
          npMean (npDiffRet equity_values) / npStd (npDiffRet equity_values) * Real.sqrt 252
        else 0
      max_drawdown := npMin (drawdownSeries (npDiffRet equity_values)) * 100 }

/-- The asset-class table embedded in `get_asset_class` (app.py lines
255-260), in the iteration order of the Python dict literal. -/
def ASSET_CLASSES : List (String × List String) :=
  [("Equity", ["VOO", "QQQ", "VEA", "VWO"]),
   ("Fixed Income", ["VTEB", "TIP", "IEF", "SHYG", "BND"]),
   ("Real Estate", ["VNQ"]),
   ("Commodities", ["GLD"])]

/-- The for-loop of `get_asset_class`: return the first category whose
symbol list contains the symbol, else fall through (app.py lines 262-265). -/
def lookupClass : List (String × List String) → String → String
  | [], _ => "Other"
  | (category, symbols) :: rest, s =>
    if s ∈ symbols then category else lookupClass rest s

/-- `get_asset_class` (app.py lines 254-265). -/
def get_asset_class (symbol : String) : String :=
  lookupClass ASSET_CLASSES symbol

/-- Claim C8: `get_asset_class` is a pure total function whose value is
always one of the five labels, sending each symbol of the embedded table
to its category and every other symbol to Other. -/
theorem c8_classify_total (s : String) :
    get_asset_class s ∈ ["Equity", "Fixed Income", "Real Estate", "Commodities", "Other"] ∧
    (s ∈ ["VOO", "QQQ", "VEA", "VWO"] → get_asset_class s = "Equity") ∧
    (s ∈ ["VTEB", "TIP", "IEF", "SHYG", "BND"] → get_asset_class s = "Fixed Income") ∧
    (s ∈ ["VNQ"] → get_asset_class s = "Real Estate") ∧
    (s ∈ ["GLD"] → get_asset_class s = "Commodities") ∧
    (s ∉ ["VOO", "QQQ", "VEA", "VWO", "VTEB", "TIP", "IEF", "SHYG", "BND", "VNQ", "GLD"] →
      get_asset_class s = "Other") := by
  simp only [get_asset_class, lookupClass, ASSET_CLASSES]
  refine ⟨?_, ?_, ?_, ?_, ?_, ?_⟩
  · split_ifs <;> simp
  · intro hs; fin_cases hs <;> rfl
  · intro hs; fin_cases hs <;> rfl
  · intro hs; fin_cases hs <;> rfl
  · intro hs; fin_cases hs <;> rfl
  · intro hs
    split_ifs with h1 h2 h3 h4
    · fin_cases h1 <;> exact absurd (by decide) hs
    · fin_cases h2 <;> exact absurd (by decide) hs
    · fin_cases h3 <;> exact absurd (by decide) hs
    · fin_cases h4 <;> exact absurd (by decide) hs
    · rfl

/-- Witness for C8 at concrete symbols: a known symbol classifies into its
category and an unknown one into Other. -/
theorem c8_classify_total_witness :
    get_asset_class ("QQQ") = "Equity" ∧ get_asset_class ("AAPL") = "Other" :=
  ⟨(c8_classify_total ("QQQ")).2.1 (by decide),
   (c8_classify_total ("AAPL")).2.2.2.2.2 (by decide)⟩

/-- Claim C5: an equity curve with fewer than two points yields the
all-zero metrics record (app.py lines 33-34). -/
theorem c5_short_curve_zero_metrics (equity_values : List ℝ)
    (h : equity_values.length < 2) :
    calculate_metrics equity_values =
      { volatility := 0, sharpe_ratio := 0, max_drawdown := 0 } := by
  simp [calculate_metrics, h]

/-- Witness for C5: the empty curve and a one-point curve. -/
theorem c5_short_curve_zero_metrics_witness :
    ([] : List ℝ).length < 2 ∧
    calculate_metrics ([] : List ℝ) =
      { volatility := 0, sharpe_ratio := 0, max_drawdown := 0 } ∧
    calculate_metrics [(77 : ℝ)] =
      { volatility := 0, sharpe_ratio := 0, max_drawdown := 0 } :=
  ⟨by simp, c5_short_curve_zero_metrics [] (by simp),
    c5_short_curve_zero_metrics [(77 : ℝ)] (by simp)⟩

@[simp]
theorem npDiffRet_nil : npDiffRet [] = [] := by
  simp [npDiffRet]

@[simp]
theorem npDiffRet_single (a : ℝ) : npDiffRet [a] = [] := by
  simp [npDiffRet]

theorem npDiffRet_cons (a b : ℝ) (t : List ℝ) :
    npDiffRet (a :: b :: t) = ((b - a) / a) :: npDiffRet (b :: t) := by
  simp [npDiffRet]

/-- Every return is built from two members of the equity list. -/
theorem npDiffRet_mem {l : List ℝ} {y : ℝ} (hy : y ∈ npDiffRet l) :
    ∃ a b, a ∈ l ∧ b ∈ l ∧ y = (b - a) / a := by
  induction l with
  | nil => simp at hy
  | cons a t ih =>
    cases t with
    | nil => simp at hy
    | cons b t' =>
      rw [npDiffRet_cons] at hy
      rcases List.mem_cons.1 hy with rfl | hy
      · exact ⟨a, b, by simp, by simp, rfl⟩
      · obtain ⟨x, z, hx, hz, rfl⟩ := ih hy
        exact ⟨x, z, by simp [hx], by simp [hz], rfl⟩

/-- Adjacent non-decreasing positive equity gives non-negative returns. -/
theorem npDiffRet_nonneg {l : List ℝ} (hpos : ∀ x ∈ l, 0 < x)
    (hchain : List.Chain' (· ≤ ·) l) : ∀ y ∈ npDiffRet l, 0 ≤ y := by
  induction l with
  | nil => simp
  | cons a t ih =>
    cases t with
    | nil => simp
    | cons b t' =>
      rw [npDiffRet_cons]
      intro y hy
      rcases List.mem_cons.1 hy with rfl | hy
      · have ha : 0 < a := hpos a (by simp)
        have hab : a ≤ b := (List.chain'_cons.1 hchain).1
        exact div_nonneg (by linarith) ha.le
      · exact ih (fun x hx => hpos x (by simp [hx]))
          (List.chain'_cons.1 hchain).2 y hy

/-- A constant equity curve has identically zero returns. -/
theorem npDiffRet_zero_of_const {l : List ℝ} {c : ℝ}
    (hc : ∀ x ∈ l, x = c) : ∀ y ∈ npDiffRet l, y = 0 := by
  induction l with
  | nil => simp
  | cons a t ih =>
    cases t with
    | nil => simp
    | cons b t' =>
      rw [npDiffRet_cons]
      intro y hy
      rcases List.mem_cons.1 hy with rfl | hy
      · rw [hc a (by simp), hc b (by simp), sub_self, zero_div]
      · exact ih (fun x hx => hc x (by simp [hx])) y hy

theorem npMean_zero {l : List ℝ} (h : ∀ x ∈ l, x = 0) : npMean l = 0 := by
  unfold npMean
  rw [List.sum_eq_zero h, zero_div]

theorem npVarR_zero {l : List ℝ} (h : ∀ x ∈ l, x = 0) : npVarR l = 0 := by
  unfold npVarR
  rw [List.sum_eq_zero, zero_div]
  intro x hx
  obtain ⟨y, hy, rfl⟩ := List.mem_map.1 hx
  rw [h y hy, npMean_zero h]
  ring

theorem npStd_zero {l : List ℝ} (h : ∀ x ∈ l, x = 0) : npStd l = 0 := by
  unfold npStd
  rw [npVarR_zero h, Real.sqrt_zero]

theorem foldlMin_mem : ∀ (t : List ℝ) (x : ℝ), t.foldl min x ∈ x :: t := by
  intro t
  induction t with
  | nil => intro x; simp
  | cons y t' ih =>
    intro x
    have h := ih (min x y)
    simp only [List.foldl_cons]
    rcases List.mem_cons.1 h with h' | h'
    · rcases min_choice x y with hxy | hxy <;> rw [h', hxy] <;> simp
    · simp [h']

theorem npMin_mem {l : List ℝ} (h : l ≠ []) : npMin l ∈ l := by
  cases l with
  | nil => exact absurd rfl h
  | cons x xs => exact foldlMin_mem xs x

theorem npMin_nonpos {l : List ℝ} (h : ∀ y ∈ l, y ≤ 0) : npMin l ≤ 0 := by
  cases l with
  | nil => simp [npMin]
  | cons x xs => exact h _ (npMin_mem (by simp))

theorem npMin_eq_zero {l : List ℝ} (h : ∀ y ∈ l, y = 0) : npMin l = 0 := by
  cases l with
  | nil => simp [npMin]
  | cons x xs => exact h _ (npMin_mem (by simp))

theorem cumprod_pos {l : List ℝ} (h : ∀ x ∈ l, 0 < x) :
    ∀ y ∈ cumprod l, 0 < y := by
  induction l with
  | nil => simp [cumprod]
  | cons x t ih =>
    intro y hy
    rw [cumprod] at hy
    rcases List.mem_cons.1 hy with rfl | hy
    · exact h _ (by simp)
    · obtain ⟨z, hz, rfl⟩ := List.mem_map.1 hy
      exact mul_pos (h x (by simp)) (ih (fun a ha => h a (by simp [ha])) z hz)

theorem cumprod_ge_one {l : List ℝ} (h : ∀ x ∈ l, 1 ≤ x) :
    ∀ y ∈ cumprod l, 1 ≤ y := by
  induction l with
  | nil => simp [cumprod]
  | cons x t ih =>
    intro y hy
    rw [cumprod] at hy
    rcases List.mem_cons.1 hy with rfl | hy
    · exact h _ (by simp)
    · obtain ⟨z, hz, rfl⟩ := List.mem_map.1 hy
      have hx : 1 ≤ x := h x (by simp)
      have hz' : 1 ≤ z := ih (fun a ha => h a (by simp [ha])) z hz
      nlinarith

theorem runmax_pos {l : List ℝ} (h : ∀ x ∈ l, 0 < x) :
    ∀ y ∈ runmax l, 0 < y := by
  induction l with
  | nil => simp [runmax]
  | cons x t ih =>
    intro y hy
    rw [runmax] at hy
    rcases List.mem_cons.1 hy with rfl | hy
    · exact h _ (by simp)
    · obtain ⟨z, hz, rfl⟩ := List.mem_map.1 hy
      exact lt_max_of_lt_left (h x (by simp))

/-- Each entry of a list is bounded by the matching running maximum. -/
theorem le_runmax : ∀ l : List ℝ, List.Forall₂ (· ≤ ·) l (runmax l) := by
  intro l
  induction l with
  | nil => simp [runmax]
  | cons x t ih =>
    rw [runmax]
    refine List.Forall₂.cons (le_refl x) ?_
    rw [List.forall₂_map_right_iff]
    exact ih.imp (fun a b hab => le_trans hab (le_max_right x b))

theorem map_eq_self {α : Type} {f : α → α} :
    ∀ (t : List α), (∀ b ∈ t, f b = b) → t.map f = t
  | [], _ => rfl
  | b :: t, h => by
    rw [List.map_cons, h b (by simp), map_eq_self t (fun a ha => h a (by simp [ha]))]

/-- On a non-decreasing list the running maximum is the list itself. -/
theorem runmax_eq_self_of_pairwise {l : List ℝ}
    (h : List.Pairwise (· ≤ ·) l) : runmax l = l := by
  induction l with
  | nil => simp [runmax]
  | cons x t ih =>
    rw [List.pairwise_cons] at h
    rw [runmax, ih h.2]
    rw [map_eq_self t (fun b hb => max_eq_right (h.1 b hb))]

/-- Cumulative products of factors that are at least 1 are non-decreasing. -/
theorem cumprod_chain {l : List ℝ} (h : ∀ x ∈ l, 1 ≤ x) :
    List.Chain' (· ≤ ·) (cumprod l) := by
  induction l with
  | nil => simp [cumprod]
  | cons x t ih =>
    rw [cumprod, List.chain'_cons']
    have hx : 1 ≤ x := h x (by simp)
    constructor
    · intro y hy
      cases hcp : cumprod t with
      | nil => simp [hcp] at hy
      | cons c cs =>
        simp only [hcp, List.map_cons, List.head?_cons, Option.mem_some_iff] at hy
        subst hy
        have hget : ∀ a ∈ t, 1 ≤ a := fun a ha => h a (List.mem_cons_of_mem x ha)
        have hc : 1 ≤ c := cumprod_ge_one hget c (by rw [hcp]; simp)
        nlinarith
    · rw [List.chain'_map]
      exact (ih (fun a ha => h a (by simp [ha]))).imp
        (fun a b hab => mul_le_mul_of_nonneg_left hab (by linarith))

theorem zip_dd_nonpos : ∀ {l m : List ℝ}, List.Forall₂ (· ≤ ·) l m →
    (∀ b ∈ m, 0 < b) →
    ∀ y ∈ List.zipWith (fun c mm => (c - mm) / mm) l m, y ≤ 0 := by
  intro l m h
  induction h with
  | nil => simp
  | @cons a b l' m' hab hf ih =>
    intro hpos y hy
    simp only [List.zipWith_cons_cons] at hy
    rcases List.mem_cons.1 hy with rfl | hy
    · have hb : 0 < b := hpos b (by simp)
      exact div_nonpos_iff.mpr (Or.inr ⟨by linarith, by linarith⟩)
    · exact ih (fun z hz => hpos z (by simp [hz])) y hy

theorem zip_dd_self_zero : ∀ (l : List ℝ),
    ∀ y ∈ List.zipWith (fun c mm => (c - mm) / mm) l l, y = 0 := by
  intro l
  induction l with
  | nil => simp
  | cons a t ih =>
    intro y hy
    simp only [List.zipWith_cons_cons] at hy
    rcases List.mem_cons.1 hy with rfl | hy
    · rw [sub_self, zero_div]
    · exact ih y hy

/-- Claim C4: a constant positive equity curve of length at least 2 has a
returns series with zero standard deviation, and `calculate_metrics`
yields volatility 0 and Sharpe ratio 0, the guarded division being
unreachable (app.py lines 39-41). -/
theorem c4_constant_equity_zero_std (equity_values : List ℝ) (c : ℝ)
    (hc : 0 < c) (hconst : ∀ x ∈ equity_values, x = c)
    (hlen : 2 ≤ equity_values.length) :
    npStd (npDiffRet equity_values) = 0 ∧
    ¬ 0 < npStd (npDiffRet equity_values) ∧
    Metrics.volatility (calculate_metrics equity_values) = 0 ∧
    Metrics.sharpe_ratio (calculate_metrics equity_values) = 0 := by
  have hz : ∀ y ∈ npDiffRet equity_values, y = 0 := npDiffRet_zero_of_const hconst
  have hstd : npStd (npDiffRet equity_values) = 0 := npStd_zero hz
  have hnl : ¬ equity_values.length < 2 := by omega
  refine ⟨hstd, by rw [hstd]; exact lt_irrefl 0, ?_, ?_⟩ <;>
    simp [calculate_metrics, hnl, hstd]

/-- Witness for C4 at the constant curve 100, 100, 100. -/
theorem c4_constant_equity_zero_std_witness :
    (0 : ℝ) < 100 ∧ (∀ x ∈ [(100 : ℝ), 100, 100], x = 100) ∧
    2 ≤ ([(100 : ℝ), 100, 100]).length ∧
    Metrics.volatility (calculate_metrics [(100 : ℝ), 100, 100]) = 0 ∧
    Metrics.sharpe_ratio (calculate_metrics [(100 : ℝ), 100, 100]) = 0 :=
  ⟨by norm_num, by norm_num, by norm_num,
   (c4_constant_equity_zero_std [(100 : ℝ), 100, 100] 100 (by norm_num)
     (by norm_num) (by norm_num)).2.2.1,
   (c4_constant_equity_zero_std [(100 : ℝ), 100, 100] 100 (by norm_num)
     (by norm_num) (by norm_num)).2.2.2⟩

/-- Counterexample to claim C3 as stated: the strictly decreasing positive
equity curve 100, 50 has max_drawdown 0 although it is not monotonically
non-decreasing, because the first drawdown entry is always zero — so
"equals 0 exactly when non-decreasing" fails in the only-if direction. -/
theorem c3_exactness_counterexample :
    (∀ x ∈ [(100 : ℝ), 50], 0 < x) ∧
    Metrics.max_drawdown (calculate_metrics [(100 : ℝ), 50]) = 0 ∧
    ¬ List.Chain' (· ≤ ·) [(100 : ℝ), 50] := by
  refine ⟨by norm_num, ?_, by simp [List.chain'_cons]; norm_num⟩
  have h1 : npDiffRet [(100 : ℝ), 50] = [(-1 : ℝ) / 2] := by
    rw [show ([(100 : ℝ), 50] : List ℝ) = 100 :: 50 :: [] from rfl, npDiffRet_cons]
    norm_num
  have h2 : drawdownSeries [(-1 : ℝ) / 2] = [0] := by
    simp only [drawdownSeries, List.map_cons, List.map_nil, cumprod, runmax,
      List.zipWith_cons_cons, List.zipWith_nil_right]
    norm_num
  have h3 : Metrics.max_drawdown (calculate_metrics [(100 : ℝ), 50]) =
      npMin (drawdownSeries (npDiffRet [(100 : ℝ), 50])) * 100 := by
    norm_num [calculate_metrics]
  rw [h3, h1, h2]
  norm_num [npMin]

/-- Claim C3 amended: for an all-positive equity curve, max_drawdown as
computed by `calculate_metrics` is always non-positive, and it equals 0
whenever the equity curve is monotonically non-decreasing (the converse
implication is false, see the counterexample). -/
theorem c3_max_drawdown_nonpos (equity_values : List ℝ)
    (hpos : ∀ x ∈ equity_values, 0 < x) :
    Metrics.max_drawdown (calculate_metrics equity_values) ≤ 0 ∧
    (List.Chain' (· ≤ ·) equity_values →
      Metrics.max_drawdown (calculate_metrics equity_values) = 0) := by
  by_cases hlen : equity_values.length < 2
  · simp [calculate_metrics, hlen]
  have hfac : ∀ z ∈ (npDiffRet equity_values).map (fun r => 1 + r), 0 < z := by
    intro z hz
    obtain ⟨y, hy, rfl⟩ := List.mem_map.1 hz
    obtain ⟨a, b, ha, hb, rfl⟩ := npDiffRet_mem hy
    have ha' := hpos a ha
    have hb' := hpos b hb
    have hab : 1 + (b - a) / a = b / a := by field_simp
    rw [hab]
    exact div_pos hb' ha'
  have hcum : ∀ y ∈ cumprod ((npDiffRet equity_values).map (fun r => 1 + r)), 0 < y :=
    cumprod_pos hfac
  have hdd : ∀ y ∈ drawdownSeries (npDiffRet equity_values), y ≤ 0 :=
    zip_dd_nonpos (le_runmax _) (runmax_pos hcum)
  constructor
  · have hmin := npMin_nonpos hdd
    simp only [calculate_metrics, hlen, if_false]
    nlinarith
  · intro hchain
    have hge : ∀ z ∈ (npDiffRet equity_values).map (fun r => 1 + r), 1 ≤ z := by
      intro z hz
      obtain ⟨y, hy, rfl⟩ := List.mem_map.1 hz
      have := npDiffRet_nonneg hpos hchain y hy
      linarith
    have hrm := runmax_eq_self_of_pairwise
      (List.chain'_iff_pairwise.1 (cumprod_chain hge))
    have hz : ∀ y ∈ drawdownSeries (npDiffRet equity_values), y = 0 := by
      unfold drawdownSeries
      rw [hrm]
      exact zip_dd_self_zero _
    simp only [calculate_metrics, hlen, if_false]
    rw [npMin_eq_zero hz, zero_mul]

/-- Witness for the amended C3 at the spec's example curve
100, 110, 99, 99: drawdown is non-positive, and at the non-decreasing
curve 100, 100, 110 it is exactly zero. -/
theorem c3_max_drawdown_nonpos_witness :
    (∀ x ∈ [(100 : ℝ), 110, 99, 99], 0 < x) ∧
    Metrics.max_drawdown (calculate_metrics [(100 : ℝ), 110, 99, 99]) ≤ 0 ∧
    List.Chain' (· ≤ ·) [(100 : ℝ), 100, 110] ∧
    Metrics.max_drawdown (calculate_metrics [(100 : ℝ), 100, 110]) = 0 :=
  ⟨by norm_num, (c3_max_drawdown_nonpos [(100 : ℝ), 110, 99, 99] (by norm_num)).1,
   by simp [List.chain'_cons]; norm_num,
   (c3_max_drawdown_nonpos [(100 : ℝ), 100, 110] (by norm_num)).2
     (by simp [List.chain'_cons]; norm_num)⟩

/-- Mean of a rational list, `np.mean` on the beta path. -/
def npMeanQ (l : List ℚ) : ℚ := l.sum / l.length

/-- Population variance (`np.var`, numpy default ddof = 0), used for the
benchmark variance in `calculate_beta` (app.py line 161). -/
def npVarQ (l : List ℚ) : ℚ :=
  (l.map (fun x => (x - npMeanQ l) ^ 2)).sum / l.length

/-- Off-diagonal entry of `np.cov(p, b)` (app.py line 160): numpy's
default is the SAMPLE covariance, normalised by N - 1 (ddof = 1). -/
def npCovQ (p b : List ℚ) : ℚ :=
  (List.zipWith (fun x y => (x - npMeanQ p) * (y - npMeanQ b)) p b).sum /
    ((p.length : ℚ) - 1)

/-- Modelled from the spec: the population covariance (normalised by N,
ddof = 0), the convention consistent with `np.var` and `np.std` that the
spec requires beta to use; kept for comparison with `npCovQ`. -/
def popCovQ (p b : List ℚ) : ℚ :=
  (List.zipWith (fun x y => (x - npMeanQ p) * (y - npMeanQ b)) p b).sum /
    (p.length : ℚ)

/-- `calculate_beta` (app.py lines 150-163). -/
def calculate_beta (portfolio_returns benchmark_returns : List ℚ) : ℚ :=
  if portfolio_returns.length ≠ benchmark_returns.length ∨
      portfolio_returns.length < 2 then 0
  else
    let min_len := min portfolio_returns.length benchmark_returns.length
    let p_ret := portfolio_returns.take min_len
    let b_ret := benchmark_returns.take min_len
    if 0 < npVarQ b_ret then npCovQ p_ret b_ret / npVarQ b_ret else 0

/-- Counterexample to claim C2: on returns [0,1] vs [0,1] the code gives
beta 2 because `np.cov` divides by N-1 while `np.var` divides by N; any
single consistent convention would give 1. -/
theorem c2_convention_counterexample :
    calculate_beta [(0 : ℚ), 1] [(0 : ℚ), 1] = 2 ∧
    popCovQ [(0 : ℚ), 1] [(0 : ℚ), 1] / npVarQ [(0 : ℚ), 1] = 1 ∧
    npCovQ [(0 : ℚ), 1] [(0 : ℚ), 1] ≠ popCovQ [(0 : ℚ), 1] [(0 : ℚ), 1] := by
  refine ⟨?_, ?_, ?_⟩ <;>
    norm_num [calculate_beta, npCovQ, npVarQ, npMeanQ, popCovQ, List.zipWith]

/-- Claim C2 amended: `calculate_beta` returns 0 on mismatched lengths or
length < 2 and on zero benchmark variance, and otherwise returns the
SAMPLE covariance (ddof 1) divided by the POPULATION variance (ddof 0),
i.e. N/(N-1) times the consistent-convention beta — the two statistical
conventions are mixed. -/
theorem c2_beta_characterization (p b : List ℚ) :
    ((p.length ≠ b.length ∨ p.length < 2) → calculate_beta p b = 0) ∧
    (p.length = b.length → 2 ≤ p.length → npVarQ b = 0 →
      calculate_beta p b = 0) ∧
    (p.length = b.length → 2 ≤ p.length → 0 < npVarQ b →
      calculate_beta p b = npCovQ p b / npVarQ b ∧
      npCovQ p b = (p.length : ℚ) / ((p.length : ℚ) - 1) * popCovQ p b) := by
  refine ⟨?_, ?_, ?_⟩
  · intro h
    simp only [calculate_beta]
    rw [if_pos h]
  · intro hlen h2 hvar
    have hcond : ¬ (p.length ≠ b.length ∨ p.length < 2) := by
      push_neg
      exact ⟨hlen, by omega⟩
    have hmin : min p.length b.length = p.length := by omega
    simp only [calculate_beta]
    rw [if_neg hcond]
    simp only [hmin, List.take_length]
    rw [show b.take p.length = b by rw [hlen, List.take_length], hvar]
    simp
  · intro hlen h2 hvar
    have hcond : ¬ (p.length ≠ b.length ∨ p.length < 2) := by
      push_neg
      exact ⟨hlen, by omega⟩
    have hmin : min p.length b.length = p.length := by omega
    constructor
    · simp only [calculate_beta]
      rw [if_neg hcond]
      simp only [hmin, List.take_length]
      rw [show b.take p.length = b by rw [hlen, List.take_length]]
      rw [if_pos hvar]
    · have hn : (2 : ℚ) ≤ (p.length : ℚ) := by exact_mod_cast h2
      have h0 : (p.length : ℚ) ≠ 0 := by linarith
      have h1 : (p.length : ℚ) - 1 ≠ 0 := by
        intro h
        have : (p.length : ℚ) = 1 := by linarith
        linarith
      unfold npCovQ popCovQ
      field_simp
      ring

/-- Witness for the amended C2: the main branch at [0,1] vs [0,1] and the
mismatched-length branch. -/
theorem c2_beta_characterization_witness :
    (0 : ℚ) < npVarQ [(0 : ℚ), 1] ∧
    calculate_beta [(0 : ℚ), 1] [(0 : ℚ), 1] =
      npCovQ [(0 : ℚ), 1] [(0 : ℚ), 1] / npVarQ [(0 : ℚ), 1] ∧
    calculate_beta [(3 : ℚ), 4, 5] [(7 : ℚ), 7] = 0 :=
  ⟨by norm_num [npVarQ, npMeanQ],
   ((c2_beta_characterization [(0 : ℚ), 1] [(0 : ℚ), 1]).2.2 rfl (by decide)
     (by norm_num [npVarQ, npMeanQ])).1,
   (c2_beta_characterization [(3 : ℚ), 4, 5] [(7 : ℚ), 7]).1 (Or.inl (by decide))⟩

/-- The PnL series `[(eq - initial_equity) for eq in equity_values]` with
`initial_equity = equity_values[0] if equity_values else 0`
(app.py lines 68-69). -/
def pnlSeries (equity_values : List ℚ) : List ℚ :=
  equity_values.map (fun e => e - equity_values.headD 0)

/-- The PnL% series, substituting 0 whenever the initial equity is not
positive (app.py line 70). -/
def pnlPctSeries (equity_values : List ℚ) : List ℚ :=
  equity_values.map (fun e =>
    if 0 < equity_values.headD 0 then
      (e - equity_values.headD 0) / equity_values.headD 0 * 100
    else 0)

theorem map_getD {α β : Type} (f : α → β) (l : List α) (d : β) (d' : α) :
    ∀ i, i < l.length → (l.map f).getD i d = f (l.getD i d') := by
  induction l with
  | nil => intro i hi; simp at hi
  | cons a t ih =>
    intro i hi
    cases i with
    | zero => simp
    | succ n =>
      simp only [List.map_cons, List.getD_cons_succ]
      exact ih n (by simpa using hi)

/-- Claim C7: for a non-empty equity curve the derived series have the
curve's length, pnl is the pointwise gap to the initial equity (so pnl at
index 0 is 0), and pnl% is the percentage gap when the initial equity is
positive and identically 0 otherwise. -/
theorem c7_derive_pnl (equity_values : List ℚ) (hne : equity_values ≠ []) :
    (pnlSeries equity_values).length = equity_values.length ∧
    (pnlPctSeries equity_values).length = equity_values.length ∧
    (∀ i, i < equity_values.length →
      (pnlSeries equity_values).getD i 0 =
        equity_values.getD i 0 - equity_values.headD 0) ∧
    (pnlSeries equity_values).getD 0 0 = 0 ∧
    (0 < equity_values.headD 0 → ∀ i, i < equity_values.length →
      (pnlPctSeries equity_values).getD i 0 =
        (equity_values.getD i 0 - equity_values.headD 0) /
          equity_values.headD 0 * 100) ∧
    (equity_values.headD 0 ≤ 0 → ∀ i, (pnlPctSeries equity_values).getD i 0 = 0) := by
  obtain ⟨a, t, rfl⟩ := List.exists_cons_of_ne_nil hne
  refine ⟨by simp [pnlSeries], by simp [pnlPctSeries], ?_, ?_, ?_, ?_⟩
  · intro i hi
    exact map_getD _ _ _ 0 i hi
  · have h := map_getD (fun e => e - (a :: t).headD 0) (a :: t) 0 0 0 (by simp)
    simp only [pnlSeries, h]
    simp
  · intro hpos i hi
    have hpa : 0 < a := by simpa using hpos
    rw [pnlPctSeries, map_getD _ _ _ 0 i hi]
    simp [hpa]
  · intro hnp i
    by_cases hi : i < (a :: t).length
    · rw [pnlPctSeries, map_getD _ _ _ 0 i hi]
      have hna : ¬ 0 < a := by simpa using hnp
      simp [hna]
    · rw [List.getD_eq_default]
      simpa [pnlPctSeries] using hi

/-- Witness for C7 at the curve 100, 150. -/
theorem c7_derive_pnl_witness :
    [(100 : ℚ), 150] ≠ [] ∧ (pnlSeries [(100 : ℚ), 150]).getD 0 0 = 0 :=
  ⟨by decide, (c7_derive_pnl [(100 : ℚ), 150] (by decide)).2.2.2.1⟩

/-- Stands for `datetime.fromtimestamp(ts).strftime(...)` (app.py line
74): a per-element formatting of a unix timestamp by the standard
library.  The exact text is irrelevant to every claim; only the
element-wise mapping matters, so the rendering is the decimal string. -/
def formatTimestamp (ts : ℤ) : String := toString ts

/-- The per-account record built by `get_portfolio_history` (app.py
lines 72-96).  The success dict carries `current_equity`, `current_cash`
and `buying_power` and no `error` key; the failure dict omits the three
snapshot fields and carries `error`, which the `Option` fields encode. -/
structure HistoryRecord where
  name : String
  timestamps : List String
  equity : List ℚ
  pnl : List ℚ
  pnl_pct : List ℚ
  current_equity : Option ℚ
  current_cash : Option ℚ
  buying_power : Option ℚ
  volatility : ℝ
  sharpe_ratio : ℝ
  max_drawdown : ℝ
  error : Option String

/-- `get_portfolio_history` (app.py lines 55-96): the two REST calls of
the `try` block are passed in as one `Except` outcome — `Except.error e`
is any exception reaching the `except` handler (app.py lines 85-96). -/
noncomputable def get_portfolio_history (account : Account)
    (fetched : Except String (PortfolioHistoryData × AccountInfo)) :
    HistoryRecord :=
  match fetched with
  | Except.ok (history, account_info) =>
    { name := account.name
      timestamps := history.timestamp.map formatTimestamp
      equity := history.equity
      pnl := pnlSeries history.equity
      pnl_pct := pnlPctSeries history.equity
      current_equity := some account_info.equity
      current_cash := some account_info.cash
      buying_power := some account_info.buying_power
      volatility := Metrics.volatility (calculate_metrics (history.equity.map Rat.cast))
      sharpe_ratio := Metrics.sharpe_ratio (calculate_metrics (history.equity.map Rat.cast))
      max_drawdown := Metrics.max_drawdown (calculate_metrics (history.equity.map Rat.cast))
      error := none }
  | Except.error e =>
    { name := account.name
      timestamps := []
      equity := []
      pnl := []
      pnl_pct := []
      current_equity := none
      current_cash := none
      buying_power := none
      volatility := 0
      sharpe_ratio := 0
      max_drawdown := 0
      error := some e }

/-- The history aggregation of the `/api/portfolio-history` route:
`[get_portfolio_history(account, ...) for account in accounts]`
(app.py line 189), with each account's fetch outcome supplied by
`hfetch`. -/
noncomputable def buildHistories (accounts : List Account)
    (hfetch : Account → Except String (PortfolioHistoryData × AccountInfo)) :
    List HistoryRecord :=
  accounts.map (fun a => get_portfolio_history a (hfetch a))

/-- One entry of the `/api/account-summary` response list (app.py lines
217-228): the success dict and the two-key failure dict have different
shapes, modelled as two constructors. -/
inductive SummaryRecord where
  | success (name : String) (equity cash buying_power portfolio_value : ℚ)
      (positions_count : ℕ) (day_profit_loss day_profit_loss_pct : ℚ)
  | failure (name : String) (error : String)
deriving DecidableEq, Repr

/-- The `name` key, present in both summary shapes. -/
def SummaryRecord.sname : SummaryRecord → String
  | SummaryRecord.success n _ _ _ _ _ _ _ => n
  | SummaryRecord.failure n _ => n

/-- An open position as returned by `rest.list_positions()`: the fields
app.py reads (`symbol`, `market_value`, `unrealized_plpc`,
`change_today`, app.py lines 296-310). -/
structure Position where
  symbol : String
  market_value : ℚ
  unrealized_plpc : ℚ
  change_today : ℚ
deriving DecidableEq, Repr

/-- One iteration of the `account_summary` loop (app.py lines 202-228):
`get_account()` and `list_positions()` outcomes arrive as one `Except`
value; on success the day P&L and its guarded percentage are derived
(`day_pnl / last_equity * 100` only when `last_equity > 0`, else 0). -/
def summaryOf (account : Account)
    (fetched : Except String (AccountInfo × List Position)) : SummaryRecord :=
  match fetched with
  | Except.ok (acc_info, positions) =>
    SummaryRecord.success account.name acc_info.equity acc_info.cash
      acc_info.buying_power acc_info.portfolio_value positions.length
      (acc_info.equity - acc_info.last_equity)
      (if 0 < acc_info.last_equity then
        (acc_info.equity - acc_info.last_equity) / acc_info.last_equity * 100
      else 0)
  | Except.error e => SummaryRecord.failure account.name e

/-- The summary rollup loop of `/api/account-summary` (app.py lines
202-228), before the optional synthetic SPY market entry is appended. -/
def buildSummaries (accounts : List Account)
    (sfetch : Account → Except String (AccountInfo × List Position)) :
    List SummaryRecord :=
  accounts.map (fun a => summaryOf a (sfetch a))

theorem get_map_helper {α β : Type} (f : α → β) (l : List α) (j : ℕ)
    (hj : j < l.length) (hj2 : j < (l.map f).length) :
    (l.map f).get ⟨j, hj2⟩ = f (l.get ⟨j, hj⟩) := by
  simp [List.get_eq_getElem, List.getElem_map]

/-- Claim C1: with exactly one failing account (index `i`, both its
history fetch and its summary fetch erroring) and all others succeeding,
both aggregation loops return one record per account in registry order;
the failing account's history record carries the name, empty series,
zero metrics and the error message, the failing summary record is the
two-key failure shape, and every other record is the fully populated
success shape with no error; no exception escapes either loop (both are
total functions of the fetch outcomes). -/
theorem c1_per_account_isolation (accounts : List Account)
    (hfetch : Account → Except String (PortfolioHistoryData × AccountInfo))
    (sfetch : Account → Except String (AccountInfo × List Position))
    (i : ℕ) (hi : i < accounts.length) (hmsg smsg : String)
    (hfail : hfetch (accounts.get ⟨i, hi⟩) = Except.error hmsg)
    (hok : ∀ j (hj : j < accounts.length), j ≠ i →
      ∃ d, hfetch (accounts.get ⟨j, hj⟩) = Except.ok d)
    (sfail : sfetch (accounts.get ⟨i, hi⟩) = Except.error smsg)
    (sok : ∀ j (hj : j < accounts.length), j ≠ i →
      ∃ d, sfetch (accounts.get ⟨j, hj⟩) = Except.ok d) :
    (buildHistories accounts hfetch).length = accounts.length ∧
    (buildSummaries accounts sfetch).length = accounts.length ∧
    (∀ j (hj : j < accounts.length)
        (hj2 : j < (buildHistories accounts hfetch).length),
      ((buildHistories accounts hfetch).get ⟨j, hj2⟩).name =
        (accounts.get ⟨j, hj⟩).name) ∧
    (∀ j (hj : j < accounts.length)
        (hj2 : j < (buildSummaries accounts sfetch).length),
      SummaryRecord.sname ((buildSummaries accounts sfetch).get ⟨j, hj2⟩) =
        (accounts.get ⟨j, hj⟩).name) ∧
    (∀ hi2 : i < (buildHistories accounts hfetch).length,
      (buildHistories accounts hfetch).get ⟨i, hi2⟩ =
        { name := (accounts.get ⟨i, hi⟩).name, timestamps := [], equity := [],
          pnl := [], pnl_pct := [], current_equity := none,
          current_cash := none, buying_power := none, volatility := 0,
          sharpe_ratio := 0, max_drawdown := 0, error := some hmsg }) ∧
    (∀ j (hj : j < accounts.length)
        (hj2 : j < (buildHistories accounts hfetch).length), j ≠ i →
      ∃ history account_info,
        hfetch (accounts.get ⟨j, hj⟩) = Except.ok (history, account_info) ∧
        ((buildHistories accounts hfetch).get ⟨j, hj2⟩).error = none ∧
        ((buildHistories accounts hfetch).get ⟨j, hj2⟩).equity =
          PortfolioHistoryData.equity history ∧
        ((buildHistories accounts hfetch).get ⟨j, hj2⟩).current_equity =
          some (AccountInfo.equity account_info)) ∧
    (∀ hi2 : i < (buildSummaries accounts sfetch).length,
      (buildSummaries accounts sfetch).get ⟨i, hi2⟩ =
        SummaryRecord.failure (accounts.get ⟨i, hi⟩).name smsg) ∧
    (∀ j (hj : j < accounts.length)
        (hj2 : j < (buildSummaries accounts sfetch).length), j ≠ i →
      ∃ acc_info positions,
        sfetch (accounts.get ⟨j, hj⟩) = Except.ok (acc_info, positions) ∧
        (buildSummaries accounts sfetch).get ⟨j, hj2⟩ =
          SummaryRecord.success (accounts.get ⟨j, hj⟩).name
            (AccountInfo.equity acc_info) (AccountInfo.cash acc_info)
            (AccountInfo.buying_power acc_info)
            (AccountInfo.portfolio_value acc_info) positions.length
            (AccountInfo.equity acc_info - AccountInfo.last_equity acc_info)
            (if 0 < AccountInfo.last_equity acc_info then
              (AccountInfo.equity acc_info - AccountInfo.last_equity acc_info) /
                AccountInfo.last_equity acc_info * 100
            else 0)) := by
  have Hmap : ∀ j (hj : j < accounts.length)
      (hj2 : j < (buildHistories accounts hfetch).length),
      (buildHistories accounts hfetch).get ⟨j, hj2⟩ =
        get_portfolio_history (accounts.get ⟨j, hj⟩)
          (hfetch (accounts.get ⟨j, hj⟩)) := by
    intro j hj hj2
    simp [buildHistories, List.get_eq_getElem, List.getElem_map]
  have Smap : ∀ j (hj : j < accounts.length)
      (hj2 : j < (buildSummaries accounts sfetch).length),
      (buildSummaries accounts sfetch).get ⟨j, hj2⟩ =
        summaryOf (accounts.get ⟨j, hj⟩) (sfetch (accounts.get ⟨j, hj⟩)) := by
    intro j hj hj2
    simp [buildSummaries, List.get_eq_getElem, List.getElem_map]
  refine ⟨by simp [buildHistories], by simp [buildSummaries], ?_, ?_, ?_, ?_, ?_, ?_⟩
  · intro j hj hj2
    rw [Hmap j hj hj2]
    cases hfetch (accounts.get ⟨j, hj⟩) <;> simp [get_portfolio_history]
  · intro j hj hj2
    rw [Smap j hj hj2]
    cases hc : sfetch (accounts.get ⟨j, hj⟩) with
    | error e => simp [summaryOf, SummaryRecord.sname]
    | ok d => simp [summaryOf, SummaryRecord.sname]
  · intro hi2
    rw [Hmap i hi hi2, hfail]
    rfl
  · intro j hj hj2 hji
    obtain ⟨⟨history, account_info⟩, hd⟩ := hok j hj hji
    refine ⟨history, account_info, hd, ?_, ?_, ?_⟩ <;>
      rw [Hmap j hj hj2, hd] <;> rfl
  · intro hi2
    rw [Smap i hi hi2, sfail]
    rfl
  · intro j hj hj2 hji
    obtain ⟨⟨acc_info, positions⟩, hd⟩ := sok j hj hji
    refine ⟨acc_info, positions, hd, ?_⟩
    rw [Smap j hj hj2, hd]
    rfl

/-- Two-account registry for the C1 witness. -/
def wAccounts : List Account :=
  [⟨"A", "keyA", "secA", "urlA"⟩, ⟨"B", "keyB", "secB", "urlB"⟩]

/-- History payload used by the C1 witness. -/
def wHist : PortfolioHistoryData := ⟨[1000, 2000], [100, 110]⟩

/-- Snapshot used by the C1 witness. -/
def wInfo : AccountInfo := ⟨110, 50, 200, 100, 110⟩

/-- History fetch outcomes for the C1 witness: account B fails. -/
def wHFetch : Account → Except String (PortfolioHistoryData × AccountInfo) :=
  fun a => if a.name = "B" then Except.error ("boom") else Except.ok (wHist, wInfo)

/-- Summary fetch outcomes for the C1 witness: account B fails. -/
def wSFetch : Account → Except String (AccountInfo × List Position) :=
  fun a => if a.name = "B" then Except.error ("crash") else Except.ok (wInfo, [])

/-- Witness for C1 on two concrete accounts with the second failing. -/
theorem c1_per_account_isolation_witness :
    (buildHistories wAccounts wHFetch).length = 2 ∧
    ((buildHistories wAccounts wHFetch).get
      ⟨1, by simp [buildHistories, wAccounts]⟩).error = some ("boom") ∧
    ((buildHistories wAccounts wHFetch).get
      ⟨0, by simp [buildHistories, wAccounts]⟩).error = none ∧
    (buildSummaries wAccounts wSFetch).get
      ⟨1, by simp [buildSummaries, wAccounts]⟩ =
        SummaryRecord.failure ("B") ("crash") := by
  have h := c1_per_account_isolation wAccounts wHFetch wSFetch 1
    (by norm_num [wAccounts]) ("boom") ("crash") (by rfl)
    (by
      intro j hj hji
      have hj0 : j = 0 := by
        simp [wAccounts] at hj
        omega
      subst hj0
      exact ⟨(wHist, wInfo), rfl⟩)
    (by rfl)
    (by
      intro j hj hji
      have hj0 : j = 0 := by
        simp [wAccounts] at hj
        omega
      subst hj0
      exact ⟨(wInfo, []), rfl⟩)
  refine ⟨by simpa [wAccounts] using h.1, ?_, ?_, ?_⟩
  · rw [h.2.2.2.2.1 (by simp [buildHistories, wAccounts])]
  · obtain ⟨history, account_info, hd, herr, _, _⟩ :=
      h.2.2.2.2.2.1 0 (by norm_num [wAccounts])
        (by simp [buildHistories, wAccounts]) (by norm_num)
    exact herr
  · have := h.2.2.2.2.2.2.1 (by simp [buildSummaries, wAccounts])
    rw [this]
    rfl

/-- A position entry of `all_positions` in `risk_metrics` (app.py lines
306-312): symbol, market value, total and intraday percentage change,
owning account. -/
structure PositionOut where
  symbol : String
  market_value : ℚ
  pl_pct : ℚ
  pl_day_pct : ℚ
  account : String
deriving DecidableEq, Repr

/-- Python's `sorted(l, key=f)`: a stable ascending key sort.  All stable
sorts agree extensionally, so insertion sort inserting after equal keys
models it exactly. -/
def pySortedByAsc {α : Type} (key : α → ℚ) (l : List α) : List α :=
  List.insertionSort (fun a b => key a ≤ key b) l

/-- Python's `sorted(l, key=f, reverse=True)`: a stable descending key
sort — ties still appear in input order. -/
def pySortedByDesc {α : Type} (key : α → ℚ) (l : List α) : List α :=
  List.insertionSort (fun a b => key b ≤ key a) l

/-- `top_gainers` (app.py line 317): sort by intraday change descending
and keep the first five. -/
def top_gainers (l : List PositionOut) : List PositionOut :=
  (pySortedByDesc (fun p => p.pl_day_pct) l).take 5

/-- `top_losers` (app.py line 318): sort by intraday change ascending and
keep the first five. -/
def top_losers (l : List PositionOut) : List PositionOut :=
  (pySortedByAsc (fun p => p.pl_day_pct) l).take 5

theorem filter_orderedInsert {α : Type} (key : α → ℚ) (r : α → α → Prop)
    [DecidableRel r] (hr : ∀ a b, key a = key b → r a b) (k : ℚ) (a : α) :
    ∀ l : List α,
      (List.orderedInsert r a l).filter (fun x => decide (key x = k)) =
        if key a = k then
          a :: l.filter (fun x => decide (key x = k))
        else l.filter (fun x => decide (key x = k)) := by
  intro l
  induction l with
  | nil => by_cases hk : key a = k <;> simp [List.orderedInsert, hk]
  | cons b t ih =>
    rw [List.orderedInsert]
    by_cases hab : r a b
    · rw [if_pos hab]
      by_cases hk : key a = k <;> simp [List.filter_cons, hk]
    · rw [if_neg hab]
      rw [List.filter_cons, List.filter_cons]
      by_cases hbk : key b = k
      · by_cases hk : key a = k
        · exact absurd (hr a b (by rw [hk, hbk])) hab
        · simp [hbk, hk, ih]
      · by_cases hk : key a = k <;> simp [hbk, hk, ih]

/-- Stability of the key sort: for every key value, the sorted list keeps
exactly the input's elements of that key, in input order. -/
theorem filter_insertionSort {α : Type} (key : α → ℚ) (r : α → α → Prop)
    [DecidableRel r] (hr : ∀ a b, key a = key b → r a b) (k : ℚ) :
    ∀ l : List α,
      (List.insertionSort r l).filter (fun x => decide (key x = k)) =
        l.filter (fun x => decide (key x = k)) := by
  intro l
  induction l with
  | nil => rfl
  | cons a t ih =>
    rw [List.insertionSort, filter_orderedInsert key r hr k, ih, List.filter_cons]
    by_cases hk : key a = k <;> simp [hk]

/-- The seven-position example of the spec, with intraday changes
5, -3, 0, 10, -10, 2, 8. -/
def ex7 : List PositionOut :=
  [⟨"P1", 0, 0, 5, "acct"⟩, ⟨"P2", 0, 0, -3, "acct"⟩, ⟨"P3", 0, 0, 0, "acct"⟩,
   ⟨"P4", 0, 0, 10, "acct"⟩, ⟨"P5", 0, 0, -10, "acct"⟩, ⟨"P6", 0, 0, 2, "acct"⟩,
   ⟨"P7", 0, 0, 8, "acct"⟩]

/-- Claim C6: `top_gainers` and `top_losers` are the first five entries of
the stable descending and ascending sorts by intraday change: they have
length `min 5 n`, are sorted in the respective direction, the underlying
sorts are permutations of the input that keep equal-key runs in input
order (stability), and on the spec's example the intraday-change keys
come out as [10, 8, 5, 2, 0] and [-10, -3, 0, 2, 5]. -/
theorem c6_ranking (l : List PositionOut) :
    (top_gainers l).length = min 5 l.length ∧
    (top_losers l).length = min 5 l.length ∧
    List.Pairwise (fun a b => b.pl_day_pct ≤ a.pl_day_pct) (top_gainers l) ∧
    List.Pairwise (fun a b => a.pl_day_pct ≤ b.pl_day_pct) (top_losers l) ∧
    (pySortedByDesc (fun p => p.pl_day_pct) l).Perm l ∧
    (pySortedByAsc (fun p => p.pl_day_pct) l).Perm l ∧
    (∀ k : ℚ, (pySortedByDesc (fun p => p.pl_day_pct) l).filter
        (fun x => decide (x.pl_day_pct = k)) =
      l.filter (fun x => decide (x.pl_day_pct = k))) ∧
    (∀ k : ℚ, (pySortedByAsc (fun p => p.pl_day_pct) l).filter
        (fun x => decide (x.pl_day_pct = k)) =
      l.filter (fun x => decide (x.pl_day_pct = k))) ∧
    (top_gainers ex7).map PositionOut.pl_day_pct = [10, 8, 5, 2, 0] ∧
    (top_losers ex7).map PositionOut.pl_day_pct = [-10, -3, 0, 2, 5] := by
  haveI htd : IsTotal PositionOut (fun a b => b.pl_day_pct ≤ a.pl_day_pct) :=
    ⟨fun a b => le_total _ _⟩
  haveI httd : IsTrans PositionOut (fun a b => b.pl_day_pct ≤ a.pl_day_pct) :=
    ⟨fun _ _ _ h1 h2 => le_trans h2 h1⟩
  haveI hta : IsTotal PositionOut (fun a b => a.pl_day_pct ≤ b.pl_day_pct) :=
    ⟨fun a b => le_total _ _⟩
  haveI htta : IsTrans PositionOut (fun a b => a.pl_day_pct ≤ b.pl_day_pct) :=
    ⟨fun _ _ _ h1 h2 => le_trans h1 h2⟩
  refine ⟨?_, ?_, ?_, ?_, ?_, ?_, ?_, ?_, by decide, by decide⟩
  · rw [top_gainers, List.length_take, pySortedByDesc, List.length_insertionSort]
  · rw [top_losers, List.length_take, pySortedByAsc, List.length_insertionSort]
  · exact ((List.sorted_insertionSort _ l).sublist (List.take_sublist _ _))
  · exact ((List.sorted_insertionSort _ l).sublist (List.take_sublist _ _))
  · exact List.perm_insertionSort _ l
  · exact List.perm_insertionSort _ l
  · intro k
    exact filter_insertionSort (fun p => p.pl_day_pct) _
      (fun a b hab => le_of_eq hab.symm) k l
  · intro k
    exact filter_insertionSort (fun p => p.pl_day_pct) _
      (fun a b hab => le_of_eq hab) k l

/-- The period-to-start mapping of `get_benchmark_history` (app.py lines
122-134), expressed as a number of days before now (one week is 7, the
default branch is five years). -/
def periodStartDays (period : String) : ℕ :=
  if period = "1D" then 1
  else if period = "1W" then 7
  else if period = "1M" then 30
  else if period = "3M" then 90
  else if period = "1Y" then 365
  else 365 * 5

/-- The populated benchmark response of `get_benchmark_history` (app.py
lines 141-145); the empty dict is `Option.none`. -/
structure BenchmarkRecord where
  symbol : String
  timestamps : List String
  close : List ℚ
deriving DecidableEq, Repr

/-- `get_benchmark_history` (app.py lines 110-147).  The bar fetch
borrows the first configured account's credentials, so that account and
the computed start offset select the outcome; a row of the returned
dataframe is a (formatted index timestamp, close) pair. -/
def get_benchmark_history (symbol : String) (period : String)
    (accounts : List Account)
    (fetchBars : Account → ℕ → Except String (List (String × ℚ))) :
    Option BenchmarkRecord :=
  match accounts with
  | [] => none
  | first :: _ =>
    match fetchBars first (periodStartDays period) with
    | Except.error _ => none
    | Except.ok bars =>
      if bars = [] then none
      else some ⟨symbol, bars.map Prod.fst, bars.map Prod.snd⟩

/-- Claim C9: `get_benchmark_history` never raises — it is total and
returns the empty result when there is no account to borrow credentials
from, when the fetch errors, or when the bar set is empty, and otherwise
returns exactly the populated symbol/timestamps/close record. -/
theorem c9_benchmark_never_raises (symbol period : String)
    (accounts : List Account)
    (fetchBars : Account → ℕ → Except String (List (String × ℚ))) :
    (accounts = [] →
      get_benchmark_history symbol period accounts fetchBars = none) ∧
    (∀ first rest, accounts = first :: rest →
      (∀ e, fetchBars first (periodStartDays period) = Except.error e →
        get_benchmark_history symbol period accounts fetchBars = none) ∧
      (fetchBars first (periodStartDays period) = Except.ok [] →
        get_benchmark_history symbol period accounts fetchBars = none) ∧
      (∀ bars, fetchBars first (periodStartDays period) = Except.ok bars →
        bars ≠ [] →
        get_benchmark_history symbol period accounts fetchBars =
          some ⟨symbol, bars.map Prod.fst, bars.map Prod.snd⟩)) ∧
    (∀ r, get_benchmark_history symbol period accounts fetchBars = some r →
      accounts ≠ [] ∧ r.symbol = symbol ∧ r.timestamps ≠ [] ∧ r.close ≠ []) := by
  refine ⟨?_, ?_, ?_⟩
  · intro h
    subst h
    rfl
  · intro first rest h
    subst h
    refine ⟨?_, ?_, ?_⟩
    · intro e he
      simp [get_benchmark_history, he]
    · intro he
      simp [get_benchmark_history, he]
    · intro bars hb hne
      simp [get_benchmark_history, hb, hne]
  · intro r hr
    cases accounts with
    | nil => simp [get_benchmark_history] at hr
    | cons first rest =>
      refine ⟨by simp, ?_⟩
      cases hf : fetchBars first (periodStartDays period) with
      | error e => simp [get_benchmark_history, hf] at hr
      | ok bars =>
        by_cases hne : bars = []
        · simp [get_benchmark_history, hf, hne] at hr
        · simp [get_benchmark_history, hf, hne] at hr
          subst hr
          simp [hne]

/-- Witness for C9: one configured account, a successful one-row fetch,
and the populated record; plus the no-accounts empty result. -/
theorem c9_benchmark_never_raises_witness :
    get_benchmark_history ("SPY") ("1M") [] (fun _ _ => Except.ok []) = none ∧
    get_benchmark_history ("SPY") ("1M") wAccounts
      (fun _ _ => Except.ok [("2024-01-02 00:00", (470 : ℚ))]) =
      some ⟨"SPY", ["2024-01-02 00:00"], [(470 : ℚ)]⟩ :=
  ⟨(c9_benchmark_never_raises ("SPY") ("1M") [] (fun _ _ => Except.ok [])).1 rfl,
   by
    have h := (c9_benchmark_never_raises ("SPY") ("1M") wAccounts
      (fun _ _ => Except.ok [("2024-01-02 00:00", (470 : ℚ))])).2.1
      ⟨"A", "keyA", "secA", "urlA"⟩ [⟨"B", "keyB", "secB", "urlB"⟩] rfl
    exact h.2.2 [("2024-01-02 00:00", (470 : ℚ))] rfl (by decide)⟩

/-- The `asset_allocation` dict of `risk_metrics` (app.py lines 272-279),
one field per fixed key. -/
structure Allocation where
  equity : ℚ
  fixed_income : ℚ
  real_estate : ℚ
  commodities : ℚ
  other : ℚ
  cash : ℚ
deriving DecidableEq, Repr

/-- The all-zero initial allocation (app.py lines 272-279). -/
def initAlloc : Allocation := ⟨0, 0, 0, 0, 0, 0⟩

/-- `asset_allocation[asset_class] += market_value` guarded by
`if asset_class in asset_allocation` with fallback to Other (app.py
lines 301-304): membership in the six fixed keys selects the field. -/
def bucketAdd (alloc : Allocation) (label : String) (v : ℚ) : Allocation :=
  if label = "Equity" then { alloc with equity := alloc.equity + v }
  else if label = "Fixed Income" then
    { alloc with fixed_income := alloc.fixed_income + v }
  else if label = "Real Estate" then
    { alloc with real_estate := alloc.real_estate + v }
  else if label = "Commodities" then
    { alloc with commodities := alloc.commodities + v }
  else if label = "Other" then { alloc with other := alloc.other + v }
  else if label = "Cash" then { alloc with cash := alloc.cash + v }
  else { alloc with other := alloc.other + v }

/-- The `all_positions.append({...})` entry (app.py lines 306-312). -/
def mkPositionOut (p : Position) (account : Account) : PositionOut :=
  ⟨p.symbol, p.market_value, p.unrealized_plpc * 100, p.change_today * 100,
   account.name⟩

/-- One iteration of the `risk_metrics` account loop (app.py lines
283-315): on a fetch error the whole account is skipped; on success the
account's cash is added to the Cash bucket and each position's market
value to its classified bucket while the position is collected. -/
def riskStep (rfetch : Account → Except String (List Position × AccountInfo))
    (st : Allocation × List PositionOut) (account : Account) :
    Allocation × List PositionOut :=
  match rfetch account with
  | Except.error _ => st
  | Except.ok (positions, account_info) =>
    positions.foldl
      (fun s p =>
        (bucketAdd s.1 (get_asset_class p.symbol) p.market_value,
         s.2 ++ [mkPositionOut p account]))
      ({ st.1 with cash := st.1.cash + account_info.cash }, st.2)

/-- The allocation/position accumulation of `/api/risk-metrics` (app.py
lines 270-315). -/
def riskRollup (accounts : List Account)
    (rfetch : Account → Except String (List Position × AccountInfo)) :
    Allocation × List PositionOut :=
  accounts.foldl (riskStep rfetch) (initAlloc, [])

/-- Total cash of the accounts whose fetch succeeded. -/
def cashSum (accounts : List Account)
    (rfetch : Account → Except String (List Position × AccountInfo)) : ℚ :=
  (accounts.map (fun a =>
    match rfetch a with
    | Except.ok (_, account_info) => account_info.cash
    | Except.error _ => 0)).sum

theorem get_asset_class_ne_cash (s : String) : get_asset_class s ≠ "Cash" := by
  simp only [get_asset_class, lookupClass, ASSET_CLASSES]
  split_ifs <;> decide

theorem bucketAdd_cash (alloc : Allocation) (v : ℚ) {label : String}
    (h : label ≠ "Cash") : (bucketAdd alloc label v).cash = alloc.cash := by
  unfold bucketAdd
  split_ifs with h1 h2 h3 h4 h5 h6 <;> first | rfl | exact absurd h6 h

theorem posfold_cash (account : Account) :
    ∀ (ps : List Position) (s : Allocation × List PositionOut),
      ((ps.foldl (fun s p =>
          (bucketAdd s.1 (get_asset_class p.symbol) p.market_value,
           s.2 ++ [mkPositionOut p account])) s).1).cash = s.1.cash := by
  intro ps
  induction ps with
  | nil => intro s; rfl
  | cons p t ih =>
    intro s
    rw [List.foldl_cons]
    exact (ih _).trans (bucketAdd_cash _ _ (get_asset_class_ne_cash _))

theorem riskfold_cash
    (rfetch : Account → Except String (List Position × AccountInfo)) :
    ∀ (accounts : List Account) (st : Allocation × List PositionOut),
      ((accounts.foldl (riskStep rfetch) st).1).cash =
        st.1.cash + cashSum accounts rfetch := by
  intro accounts
  induction accounts with
  | nil => intro st; simp [cashSum]
  | cons a t ih =>
    intro st
    rw [List.foldl_cons, ih]
    have hstep : ((riskStep rfetch st a).1).cash =
        st.1.cash + (match rfetch a with
          | Except.ok (_, account_info) => account_info.cash
          | Except.error _ => 0) := by
      cases hf : rfetch a with
      | error e => simp [riskStep, hf]
      | ok d =>
        obtain ⟨positions, account_info⟩ := d
        simp only [riskStep, hf]
        rw [posfold_cash]
    rw [hstep]
    simp only [cashSum, List.map_cons, List.sum_cons]
    ring

/-- Claim C10: `get_asset_class` ranges over exactly the five non-Cash
labels (each attained, Cash never), so in the risk rollup the Cash
bucket is exactly the summed cash of the successfully fetched accounts
and never receives a position's market value through classification. -/
theorem c10_cash_bucket_isolation :
    (∀ s, get_asset_class s ≠ "Cash") ∧
    (∀ s, get_asset_class s ∈
      ["Equity", "Fixed Income", "Real Estate", "Commodities", "Other"]) ∧
    get_asset_class ("VOO") = "Equity" ∧
    get_asset_class ("BND") = "Fixed Income" ∧
    get_asset_class ("VNQ") = "Real Estate" ∧
    get_asset_class ("GLD") = "Commodities" ∧
    get_asset_class ("ZZZ") = "Other" ∧
    (∀ (accounts : List Account)
        (rfetch : Account → Except String (List Position × AccountInfo)),
      ((riskRollup accounts rfetch).1).cash = cashSum accounts rfetch) := by
  refine ⟨get_asset_class_ne_cash, ?_, by decide, by decide, by decide,
    by decide, by decide, ?_⟩
  · intro s
    simp only [get_asset_class, lookupClass, ASSET_CLASSES]
    split_ifs <;> simp
  · intro accounts rfetch
    have h := riskfold_cash rfetch accounts (initAlloc, [])
    simpa [riskRollup, initAlloc] using h
